import Mathlib

/-!
Verification of the streaming deflate session in `src/deflate.rs` (mtpng).

The session code drives an opaque compression engine (zlib, linked as
`libz_sys`) through explicit cursor state.  The engine itself is outside the
repository, so it is embedded as an abstract `Engine` record of pure
functions; the session's own logic (`init`, `set_dictionary`, the
engine-driving loop in `deflate`, `write`, `finish`) is translated
faithfully from the Rust source.  Machine-level details kept in the model:
the 32 KiB scratch buffer, the `avail_in` / `avail_out` cursor bookkeeping
(as lists of bytes), the exact status-to-error mapping including message
strings, and the panic in `set_dictionary` from indexing `dict[0]`.
-/

/-- A byte is modelled as a natural number (value range never matters here). -/
abbrev Byte := Nat

/-- Status codes returned by the engine, one per zlib return code used by
the source: `Z_OK`, `Z_STREAM_END`, `Z_MEM_ERROR`, `Z_STREAM_ERROR`,
`Z_VERSION_ERROR`, `Z_DATA_ERROR`, `Z_BUF_ERROR`, plus a catch-all for any
other value the engine might return. -/
inductive ZStatus where
  | ok
  | streamEnd
  | memError
  | streamError
  | versionError
  | dataError
  | bufError
  | unexpected
deriving DecidableEq, Repr

/-- The two `std::io::ErrorKind` values used by `deflate.rs`
(`invalid_input` and `other` helpers at the top of the file). -/
inductive ErrorKind where
  | invalidInput
  | other
deriving DecidableEq, Repr

/-- `Options` from `deflate.rs`: the five `c_int` fields handed to
`deflateInit2_`. -/
structure Options where
  level : Int
  method : Int
  window_bits : Int
  mem_level : Int
  strategy : Int
deriving DecidableEq, Repr

/-- `Z_DEFAULT_COMPRESSION` from zlib. -/
def Z_DEFAULT_COMPRESSION : Int := -1

/-- `Z_DEFLATED` from zlib. -/
def Z_DEFLATED : Int := 8

/-- `Z_DEFAULT_STRATEGY` from zlib. -/
def Z_DEFAULT_STRATEGY : Int := 0

/-- `OptionsBuilder` from `deflate.rs`. -/
structure OptionsBuilder where
  options : Options
deriving DecidableEq, Repr

/-- `OptionsBuilder::new()`: defaults `level = Z_DEFAULT_COMPRESSION`,
`method = Z_DEFLATED`, `window_bits = 15`, `mem_level = 8`,
`strategy = Z_DEFAULT_STRATEGY`. -/
def OptionsBuilder.new : OptionsBuilder :=
  { options :=
    { level := Z_DEFAULT_COMPRESSION
      method := Z_DEFLATED
      window_bits := 15
      mem_level := 8
      strategy := Z_DEFAULT_STRATEGY } }

/-- The Rust cast `level as c_int` applied to a `u32` (wrap into a signed
32-bit value). -/
def u32AsCInt (n : Nat) : Int :=
  if n % 2 ^ 32 < 2 ^ 31 then ((n % 2 ^ 32 : Nat) : Int)
  else ((n % 2 ^ 32 : Nat) : Int) - 2 ^ 32

/-- `OptionsBuilder::set_level`. -/
def OptionsBuilder.set_level (b : OptionsBuilder) (level : Nat) : OptionsBuilder :=
  { b with options := { b.options with level := u32AsCInt level } }

/-- `OptionsBuilder::finish`. -/
def OptionsBuilder.finish (b : OptionsBuilder) : Options :=
  b.options

/-- The `Flush` enum from `deflate.rs` (zlib flush directives). -/
inductive Flush where
  | noFlush
  | partialFlush
  | syncFlush
  | fullFlush
  | finish
  | block
  | trees
deriving DecidableEq, Repr

/-- The `Output` enum from `deflate.rs`: write drained bytes to the sink or
discard them. -/
inductive Output where
  | write
  | discard
deriving DecidableEq, Repr

/-- What one engine `deflate` call leaves behind: the status code, the new
opaque engine state, how many bytes of the presented input region it
consumed (`avail_in` decreases by this much), and the bytes it wrote into
the output region (`avail_out` decreases by their count). -/
structure StepResult (σ : Type) where
  status : ZStatus
  state : σ
  consumed : Nat
  out : List Byte
deriving Repr

/-- The opaque compression engine (zlib behind `libz_sys`), embedded as a
record of pure functions over an opaque state type `σ`:
`initE` for `deflateInit2_`, `setDictionaryE` for `deflateSetDictionary`,
`stepE` for `deflate` (arguments: state, the remaining `avail_in` region,
the flush directive, the `avail_out` capacity), `endE` for `deflateEnd`. -/
structure Engine (σ : Type) where
  initE : Options → ZStatus × σ
  setDictionaryE : σ → List Byte → ZStatus × σ
  stepE : σ → List Byte → Flush → Nat → StepResult σ
  endE : σ → ZStatus

/-- The `Deflate<W>` struct with `W` instantiated to a byte vector sink
(`output` is the sink's accumulated contents).  `stream` holds the opaque
engine part of the `z_stream`; `avail_in` holds the session-visible input
cursor region of the `z_stream` (the bytes presented but not yet consumed by
the engine). -/
structure Deflate (σ : Type) where
  output : List Byte
  options : Options
  initialized : Bool
  finished : Bool
  stream : σ
  avail_in : List Byte
deriving Repr

/-- Outcome of a `&mut self` session method: `ok`/`err` carry the session as
left by the call (Rust keeps `self` alive across an `Err` return), `diverge`
models running out of loop fuel, `panic` models a Rust panic. -/
inductive DResult (σ : Type) where
  | ok : Deflate σ → DResult σ
  | err : Deflate σ → ErrorKind → String → DResult σ
  | diverge : DResult σ
  | panic : DResult σ
deriving Repr

/-- Outcome of `Deflate::finish`, which consumes the session and on success
returns the writer (here: the sink contents). -/
inductive FinishResult where
  | okW : List Byte → FinishResult
  | errW : ErrorKind → String → FinishResult
deriving DecidableEq, Repr

/-- `Deflate::new`: fresh session; `s0` stands for the `mem::zeroed()`
initial `z_stream` contents. -/
def Deflate.new (options : Options) (w : List Byte) (s0 : σ) : Deflate σ :=
  { output := w
    options := options
    initialized := false
    finished := false
    stream := s0
    avail_in := [] }

/-- `Deflate::init`: idempotent lazy initialization.  When not yet
initialized, calls the engine's `deflateInit2_` and maps its status exactly
as the source does (note the message `"Incompatible version of zlib"` on
`Z_VERSION_ERROR`). -/
def Deflate.init (E : Engine σ) (d : Deflate σ) : DResult σ :=
  if d.initialized then
    .ok d
  else
    match E.initE d.options with
    | (.ok, s) => .ok { d with initialized := true, stream := s }
    | (.memError, s) => .err { d with stream := s } .other "Out of memory"
    | (.streamError, s) => .err { d with stream := s } .invalidInput "Invalid parameter"
    | (.versionError, s) => .err { d with stream := s } .invalidInput "Incompatible version of zlib"
    | (_, s) => .err { d with stream := s } .other "Unexpected error"

/-- `Deflate::set_dictionary`: runs `init` first (propagating errors), then
evaluates `&dict[0]` — which panics on an empty slice — before the engine
call, and finally maps the `deflateSetDictionary` status. -/
def Deflate.set_dictionary (E : Engine σ) (d : Deflate σ) (dict : List Byte) : DResult σ :=
  match Deflate.init E d with
  | .ok d1 =>
    match dict with
    | [] => .panic
    | _ :: _ =>
      match E.setDictionaryE d1.stream dict with
      | (.ok, s) => .ok { d1 with stream := s }
      | (.streamError, s) => .err { d1 with stream := s } .invalidInput "Invalid parameter"
      | (_, s) => .err { d1 with stream := s } .other "Unexpected error"
  | r => r

/-- The scratch output buffer size used by `Deflate::deflate`:
`[0u8; 32 * 1024]`. -/
def bufLen : Nat := 32 * 1024

/-- Writing the drained bytes to the sink (`Output::Write`) or dropping them
(`Output::Discard`), as in the loop body of `Deflate::deflate`. -/
def applyOutput (om : Output) (sink : List Byte) (bytes : List Byte) : List Byte :=
  match om with
  | .write => sink ++ bytes
  | .discard => sink

/-- The session state after one engine step whose status is `Z_OK` or
`Z_STREAM_END`: the drained bytes (`buffer.len() - avail_out` of them, i.e.
exactly `r.out`) go to the sink or are dropped, the `z_stream` holds the
engine's new state, and `avail_in` has shrunk by what the engine consumed. -/
def stepUpdate (om : Output) (d : Deflate σ) (r : StepResult σ) : Deflate σ :=
  { d with
    output := applyOutput om d.output r.out
    stream := r.state
    avail_in := d.avail_in.drop r.consumed }

/-- The session state after an engine step that ends the call with an error
status: nothing is written to the sink, but the `z_stream` cursors keep
whatever the engine left in them. -/
def errUpdate (d : Deflate σ) (r : StepResult σ) : Deflate σ :=
  { d with
    stream := r.state
    avail_in := d.avail_in.drop r.consumed }

/-- The `loop` of `Deflate::deflate`, with explicit fuel.  Each iteration
points the engine at the full 32 KiB scratch buffer, invokes the engine's
step function, and then matches the status exactly as the source does:
on `Z_OK`/`Z_STREAM_END` the drained bytes are written (or discarded); on
`Z_OK` it loops again only when `avail_out == 0`, otherwise returns
success; on `Z_STREAM_END` it sets `finished` and returns success;
`Z_STREAM_ERROR`, `Z_BUF_ERROR` and any other status return the errors of
the source. -/
def driveLoop (E : Engine σ) (om : Output) (flush : Flush) : Nat → Deflate σ → DResult σ
  | 0, _ => .diverge
  | fuel + 1, d =>
    let r := E.stepE d.stream d.avail_in flush bufLen
    match r.status with
    | .ok =>
      if bufLen - r.out.length = 0 then
        driveLoop E om flush fuel (stepUpdate om d r)
      else
        .ok (stepUpdate om d r)
    | .streamEnd => .ok { stepUpdate om d r with finished := true }
    | .streamError => .err (errUpdate d r) .invalidInput "Inconsistent stream state"
    | .bufError => .err (errUpdate d r) .other "No progress possible"
    | _ => .err (errUpdate d r) .other "Unexpected error"

/-- `Deflate::deflate`: ensure initialization, present the whole `data`
slice as the engine's input region (the source supplies a dummy non-null
pointer when `data` is empty; in the model the region is just the list,
possibly empty), then run the drain loop. -/
def Deflate.deflate (E : Engine σ) (fuel : Nat) (d : Deflate σ) (data : List Byte)
    (flush : Flush) (om : Output) : DResult σ :=
  match Deflate.init E d with
  | .ok d1 => driveLoop E om flush fuel { d1 with avail_in := data }
  | r => r

/-- `Deflate::write`: ensure initialization, then `deflate` in
`Output::Write` mode. -/
def Deflate.write (E : Engine σ) (fuel : Nat) (d : Deflate σ) (data : List Byte)
    (flush : Flush) : DResult σ :=
  match Deflate.init E d with
  | .ok d1 => Deflate.deflate E fuel d1 data flush .write
  | r => r

/-- `Deflate::finish`: if never initialized, just hand the writer back.
Otherwise (the automatic final flush is commented out in the source, so
nothing is drained even when `finished` is false) call the engine's
`deflateEnd` and map its status: `Z_OK` and `Z_STREAM_ERROR` both return
the writer, `Z_DATA_ERROR` fails with "Stream freed early", anything else
with "Unexpected error". -/
def Deflate.finish (E : Engine σ) (d : Deflate σ) : FinishResult :=
  if d.initialized then
    match E.endE d.stream with
    | .ok => .okW d.output
    | .streamError => .okW d.output
    | .dataError => .errW .invalidInput "Stream freed early"
    | _ => .errW .other "Unexpected error"
  else
    .okW d.output

/-- Modelled from the spec: the compression engine itself (zlib) is not part
of this repository, so its behavioural contract (spec sections 4.2 and 6) is
modelled abstractly.  `absIn s` / `absOut s` are ghost views of the engine
state: the bytes absorbed from the input regions so far and the bytes
emitted into output regions so far.  The fields state, for every reachable
or unreachable engine state alike:
* `init_fresh`: a successful `deflateInit2_` yields a state that has
  absorbed and emitted nothing;
* `step_wf`: a step never consumes more than the presented input nor emits
  more than the output capacity;
* `step_abs`: on `Z_OK`/`Z_STREAM_END` the ghost views grow by exactly the
  consumed prefix of the input and the emitted bytes;
* `drain_all`: when a step returns `Z_OK` with space left in the output
  region, or `Z_STREAM_END`, the whole presented input was consumed (the
  zlib drain contract the session relies on);
* `finish_fills`: under `Z_FINISH` a `Z_OK` return means the output region
  was filled completely (otherwise zlib would have ended the stream);
* `end_round_trip`: once the stream has ended, the concatenation of all
  emitted bytes decompresses (via the conforming decompressor `inflate`)
  back to the concatenation of all absorbed bytes. -/
structure Conforming (E : Engine σ) (inflate : List Byte → Option (List Byte))
    (absIn absOut : σ → List Byte) : Prop where
  init_fresh : ∀ o, (E.initE o).1 = .ok →
    absIn (E.initE o).2 = [] ∧ absOut (E.initE o).2 = []
  step_wf : ∀ s inp fl cap,
    (E.stepE s inp fl cap).consumed ≤ inp.length ∧
    (E.stepE s inp fl cap).out.length ≤ cap
  step_abs : ∀ s inp fl cap,
    (E.stepE s inp fl cap).status = .ok ∨ (E.stepE s inp fl cap).status = .streamEnd →
    absIn (E.stepE s inp fl cap).state = absIn s ++ inp.take (E.stepE s inp fl cap).consumed ∧
    absOut (E.stepE s inp fl cap).state = absOut s ++ (E.stepE s inp fl cap).out
  drain_all : ∀ s inp fl cap,
    ((E.stepE s inp fl cap).status = .ok ∧ (E.stepE s inp fl cap).out.length < cap) ∨
      (E.stepE s inp fl cap).status = .streamEnd →
    (E.stepE s inp fl cap).consumed = inp.length
  finish_fills : ∀ s inp cap,
    (E.stepE s inp .finish cap).status = .ok →
    (E.stepE s inp .finish cap).out.length = cap
  end_round_trip : ∀ s inp fl cap,
    (E.stepE s inp fl cap).status = .streamEnd →
    inflate (absOut (E.stepE s inp fl cap).state) =
      some (absIn (E.stepE s inp fl cap).state)

/-- State of the toy conforming engine used to exercise the theorems on
concrete runs: the list of all bytes absorbed so far paired with how many of
them have already been re-emitted ("identity compression"). -/
abbrev ToyState := List Byte × Nat

/-- The toy engine's step: absorb the whole input region, emit the next
`cap` still-unemitted absorbed bytes; under `Flush.finish` the stream ends
as soon as the output region is not filled completely. -/
def toyStep (s : ToyState) (inp : List Byte) (fl : Flush) (cap : Nat) : StepResult ToyState :=
  let absorbed := s.1 ++ inp
  let e := min s.2 s.1.length
  let out := (absorbed.drop e).take cap
  { status :=
      match fl with
      | .finish => if out.length < cap then .streamEnd else .ok
      | _ => .ok
    state := (absorbed, e + out.length)
    consumed := inp.length
    out := out }

/-- A toy conforming engine ("identity compression"): used to run the
session on concrete inputs. -/
def toyEngine : Engine ToyState :=
  { initE := fun _ => (.ok, ([], 0))
    setDictionaryE := fun s _ => (.ok, s)
    stepE := toyStep
    endE := fun _ => .ok }

/-- Ghost view of absorbed input for the toy engine. -/
def toyAbsIn (s : ToyState) : List Byte := s.1

/-- Ghost view of emitted output for the toy engine. -/
def toyAbsOut (s : ToyState) : List Byte := s.1.take s.2

/-- The decompressor matching the toy engine's identity compression. -/
def idInflate (l : List Byte) : Option (List Byte) := some l

lemma stepUpdate_stream (om : Output) (d : Deflate σ) (r : StepResult σ) :
    (stepUpdate om d r).stream = r.state := rfl

lemma stepUpdate_output_write (d : Deflate σ) (r : StepResult σ) :
    (stepUpdate .write d r).output = d.output ++ r.out := rfl

lemma stepUpdate_avail_in (om : Output) (d : Deflate σ) (r : StepResult σ) :
    (stepUpdate om d r).avail_in = d.avail_in.drop r.consumed := rfl

lemma stepUpdate_initialized (om : Output) (d : Deflate σ) (r : StepResult σ) :
    (stepUpdate om d r).initialized = d.initialized := rfl

lemma stepUpdate_finished (om : Output) (d : Deflate σ) (r : StepResult σ) :
    (stepUpdate om d r).finished = d.finished := rfl

lemma stepUpdate_options (om : Output) (d : Deflate σ) (r : StepResult σ) :
    (stepUpdate om d r).options = d.options := rfl

lemma take_length_take (l : List Byte) (cap : Nat) :
    l.take ((l.take cap).length) = l.take cap := by
  rw [List.length_take]
  rcases le_total cap l.length with h | h
  · rw [min_eq_left h]
  · rw [min_eq_right h, List.take_length, List.take_of_length_le h]

lemma take_min_self (l : List Byte) (n : Nat) :
    l.take (min n l.length) = l.take n := by
  rcases le_total n l.length with h | h
  · rw [min_eq_left h]
  · rw [min_eq_right h, List.take_length, List.take_of_length_le h]

/-- The toy engine satisfies the modelled zlib contract. -/
theorem toyConforming : Conforming toyEngine idInflate toyAbsIn toyAbsOut := by
  constructor
  · intro o _
    exact ⟨rfl, rfl⟩
  · intro s inp fl cap
    refine ⟨le_refl _, ?_⟩
    simp only [toyEngine, toyStep, List.length_take]
    exact min_le_left _ _
  · intro s inp fl cap _
    constructor
    · simp [toyEngine, toyStep, toyAbsIn]
    · simp only [toyEngine, toyStep, toyAbsOut]
      rw [List.take_add]
      congr 1
      · rw [List.take_append_of_le_length (min_le_right s.2 s.1.length)]
        exact take_min_self s.1 s.2
      · exact take_length_take _ _
  · intro s inp fl cap _
    rfl
  · intro s inp cap h
    simp only [toyEngine, toyStep] at h ⊢
    split at h
    · exact absurd h (by simp)
    · rename_i hge
      rw [List.length_take] at hge ⊢
      omega
  · intro s inp fl cap h
    simp only [toyEngine, toyStep, idInflate, toyAbsIn, toyAbsOut, Option.some.injEq] at h ⊢
    match fl with
    | .finish =>
      simp only at h
      split at h
      case isTrue hlt =>
        rw [List.length_take, List.length_drop] at hlt
        rw [List.take_of_length_le]
        rw [List.length_take, List.length_drop]
        omega
      case isFalse => exact absurd h (by simp)
    | .noFlush => exact absurd h (by simp)
    | .partialFlush => exact absurd h (by simp)
    | .syncFlush => exact absurd h (by simp)
    | .fullFlush => exact absurd h (by simp)
    | .block => exact absurd h (by simp)
    | .trees => exact absurd h (by simp)

/-- Core lemma about the drain loop in `Output::Write` mode, for a
conforming engine: a successful return has handed the whole presented
input region to the engine, appended to the sink exactly the bytes the
engine emitted, left `avail_in` empty, not touched `initialized` or
`options`, kept `finished` monotone, and — under `Flush.finish` — ended
the stream with the round-trip property. -/
theorem driveLoop_ok_spec (E : Engine σ) (inflate : List Byte → Option (List Byte))
    (absIn absOut : σ → List Byte) (hc : Conforming E inflate absIn absOut)
    (fl : Flush) :
    ∀ fuel (d d' : Deflate σ), driveLoop E .write fl fuel d = .ok d' →
      absIn d'.stream = absIn d.stream ++ d.avail_in ∧
      (∃ δ, d'.output = d.output ++ δ ∧ absOut d'.stream = absOut d.stream ++ δ) ∧
      d'.avail_in = [] ∧
      d'.initialized = d.initialized ∧
      d'.options = d.options ∧
      (d.finished = true → d'.finished = true) ∧
      (fl = .finish → d'.finished = true ∧
        inflate (absOut d'.stream) = some (absIn d'.stream)) := by
  intro fuel
  induction fuel with
  | zero =>
    intro d d' h
    simp only [driveLoop] at h
    exact DResult.noConfusion h
  | succ n ih =>
    intro d d' h
    simp only [driveLoop] at h
    set r := E.stepE d.stream d.avail_in fl bufLen with hr
    have hwf := hc.step_wf d.stream d.avail_in fl bufLen
    have habs := hc.step_abs d.stream d.avail_in fl bufLen
    have hdrain := hc.drain_all d.stream d.avail_in fl bufLen
    have hrt := hc.end_round_trip d.stream d.avail_in fl bufLen
    rw [← hr] at hwf habs hdrain hrt
    split at h
    · -- status = .ok
      rename_i hst
      split at h
      · -- avail_out = 0 : the loop continues
        rename_i hzero
        obtain ⟨ihIn, ⟨δ, ihOut, ihAbsOut⟩, ihAvail, ihInit, ihOpts, ihFin, ihFinish⟩ :=
          ih (stepUpdate .write d r) d' h
        obtain ⟨habsIn, habsOut⟩ := habs (Or.inl hst)
        rw [stepUpdate_stream, stepUpdate_avail_in, habsIn] at ihIn
        rw [stepUpdate_output_write] at ihOut
        rw [stepUpdate_stream, habsOut] at ihAbsOut
        rw [stepUpdate_initialized] at ihInit
        rw [stepUpdate_options] at ihOpts
        rw [stepUpdate_finished] at ihFin
        refine ⟨?_, ⟨r.out ++ δ, by rw [ihOut, List.append_assoc],
          by rw [ihAbsOut, List.append_assoc]⟩, ihAvail, ihInit, ihOpts, ihFin, ihFinish⟩
        rw [ihIn, List.append_assoc, List.take_append_drop]
      · -- avail_out ≠ 0 : success return
        rename_i hnz
        injection h with h
        subst h
        have hlt : r.out.length < bufLen := by omega
        have hcons : r.consumed = d.avail_in.length := hdrain (Or.inl ⟨hst, hlt⟩)
        obtain ⟨habsIn, habsOut⟩ := habs (Or.inl hst)
        refine ⟨?_, ⟨r.out, stepUpdate_output_write d r, by rw [stepUpdate_stream, habsOut]⟩,
          ?_, stepUpdate_initialized _ d r, stepUpdate_options _ d r,
          fun hf => by rw [stepUpdate_finished]; exact hf, ?_⟩
        · rw [stepUpdate_stream, habsIn, hcons, List.take_length]
        · rw [stepUpdate_avail_in, hcons, List.drop_length]
        · intro hfl
          subst hfl
          have := hc.finish_fills d.stream d.avail_in bufLen
          rw [← hr] at this
          exact absurd (this hst) (by omega)
    · -- status = .streamEnd
      rename_i hst
      injection h with h
      subst h
      have hcons : r.consumed = d.avail_in.length := hdrain (Or.inr hst)
      obtain ⟨habsIn, habsOut⟩ := habs (Or.inr hst)
      have hrt2 := hrt hst
      refine ⟨?_, ⟨r.out, ?_, ?_⟩, ?_, ?_, ?_, ?_, ?_⟩
      · show absIn r.state = _
        rw [habsIn, hcons, List.take_length]
      · show (stepUpdate .write d r).output = _
        exact stepUpdate_output_write d r
      · show absOut r.state = _
        rw [habsOut]
      · show (stepUpdate .write d r).avail_in = _
        rw [stepUpdate_avail_in, hcons, List.drop_length]
      · exact stepUpdate_initialized .write d r
      · exact stepUpdate_options .write d r
      · intro _; rfl
      · intro _
        refine ⟨rfl, ?_⟩
        show inflate (absOut r.state) = some (absIn r.state)
        exact hrt2
    · rename_i hst
      exact DResult.noConfusion h
    · rename_i hst
      exact DResult.noConfusion h
    · rename_i hst
      exact DResult.noConfusion h

lemma init_of_initialized (E : Engine σ) (d : Deflate σ) (h : d.initialized = true) :
    Deflate.init E d = .ok d := by
  simp [Deflate.init, h]

lemma init_ok_cases (E : Engine σ) (d d1 : Deflate σ) (h : Deflate.init E d = .ok d1) :
    (d.initialized = true ∧ d1 = d) ∨
    (d.initialized = false ∧ (E.initE d.options).1 = .ok ∧
      d1 = { d with initialized := true, stream := (E.initE d.options).2 }) := by
  unfold Deflate.init at h
  split at h
  · rename_i hi
    injection h with h
    exact Or.inl ⟨hi, h.symm⟩
  · rename_i hi
    rw [Bool.not_eq_true] at hi
    split at h
    · rename_i s heq
      injection h with h
      exact Or.inr ⟨hi, by rw [heq], by rw [heq, ← h]⟩
    · exact DResult.noConfusion h
    · exact DResult.noConfusion h
    · exact DResult.noConfusion h
    · exact DResult.noConfusion h

lemma init_err_fields (E : Engine σ) (d d2 : Deflate σ) (k : ErrorKind) (m : String)
    (h : Deflate.init E d = .err d2 k m) :
    d2.initialized = d.initialized ∧ d2.finished = d.finished ∧
    d2.output = d.output ∧ d2.options = d.options ∧ d2.avail_in = d.avail_in := by
  unfold Deflate.init at h
  split at h
  · exact DResult.noConfusion h
  · split at h
    · exact DResult.noConfusion h
    all_goals
      injection h with h1 h2 h3
      exact ⟨by rw [← h1], by rw [← h1], by rw [← h1], by rw [← h1], by rw [← h1]⟩

lemma init_ok_fields (E : Engine σ) (d d1 : Deflate σ) (h : Deflate.init E d = .ok d1) :
    d1.initialized = true ∧ d1.finished = d.finished ∧
    d1.output = d.output ∧ d1.options = d.options ∧ d1.avail_in = d.avail_in := by
  rcases init_ok_cases E d d1 h with ⟨hi, rfl⟩ | ⟨hi, hok, rfl⟩
  · exact ⟨hi, rfl, rfl, rfl, rfl⟩
  · exact ⟨rfl, rfl, rfl, rfl, rfl⟩

lemma driveLoop_ok_fields (E : Engine σ) (om : Output) (fl : Flush) :
    ∀ fuel (d d2 : Deflate σ), driveLoop E om fl fuel d = .ok d2 →
      d2.initialized = d.initialized ∧ d2.options = d.options ∧
      (d.finished = true → d2.finished = true) := by
  intro fuel
  induction fuel with
  | zero =>
    intro d d2 h
    simp only [driveLoop] at h
    exact DResult.noConfusion h
  | succ n ih =>
    intro d d2 h
    simp only [driveLoop] at h
    split at h
    · split at h
      · obtain ⟨h1, h2, h3⟩ := ih _ _ h
        rw [stepUpdate_initialized] at h1
        rw [stepUpdate_options] at h2
        rw [stepUpdate_finished] at h3
        exact ⟨h1, h2, h3⟩
      · injection h with h
        subst h
        exact ⟨stepUpdate_initialized om d _, stepUpdate_options om d _,
          fun hf => by rw [stepUpdate_finished]; exact hf⟩
    · injection h with h
      subst h
      exact ⟨stepUpdate_initialized om d (E.stepE d.stream d.avail_in fl bufLen),
        stepUpdate_options om d (E.stepE d.stream d.avail_in fl bufLen), fun _ => rfl⟩
    · exact DResult.noConfusion h
    · exact DResult.noConfusion h
    · exact DResult.noConfusion h

lemma driveLoop_err_fields (E : Engine σ) (om : Output) (fl : Flush) :
    ∀ fuel (d d2 : Deflate σ) (k : ErrorKind) (m : String),
      driveLoop E om fl fuel d = .err d2 k m →
      d2.initialized = d.initialized ∧ d2.options = d.options ∧
      d2.finished = d.finished := by
  intro fuel
  induction fuel with
  | zero =>
    intro d d2 k m h
    simp only [driveLoop] at h
    exact DResult.noConfusion h
  | succ n ih =>
    intro d d2 k m h
    simp only [driveLoop] at h
    split at h
    · split at h
      · obtain ⟨h1, h2, h3⟩ := ih _ _ _ _ h
        rw [stepUpdate_initialized] at h1
        rw [stepUpdate_options] at h2
        rw [stepUpdate_finished] at h3
        exact ⟨h1, h2, h3⟩
      · exact DResult.noConfusion h
    · exact DResult.noConfusion h
    · injection h with h _ _
      subst h
      exact ⟨rfl, rfl, rfl⟩
    · injection h with h _ _
      subst h
      exact ⟨rfl, rfl, rfl⟩
    · injection h with h _ _
      subst h
      exact ⟨rfl, rfl, rfl⟩

lemma driveLoop_no_streamEnd (E : Engine σ) (om : Output) (fl : Flush)
    (hne : ∀ s inp, (E.stepE s inp fl bufLen).status ≠ .streamEnd) :
    ∀ fuel (d d2 : Deflate σ), driveLoop E om fl fuel d = .ok d2 →
      d2.finished = d.finished := by
  intro fuel
  induction fuel with
  | zero =>
    intro d d2 h
    simp only [driveLoop] at h
    exact DResult.noConfusion h
  | succ n ih =>
    intro d d2 h
    simp only [driveLoop] at h
    split at h
    · split at h
      · have := ih _ _ h
        rw [stepUpdate_finished] at this
        exact this
      · injection h with h
        subst h
        exact stepUpdate_finished om d _
    · rename_i hst
      exact absurd hst (hne _ _)
    · exact DResult.noConfusion h
    · exact DResult.noConfusion h
    · exact DResult.noConfusion h

/-- What a successful `Deflate::write` call guarantees, over a conforming
engine: the session is initialized, the whole `data` slice was consumed
(`avail_in` empty on return), the bytes appended to the sink are exactly
the bytes the engine emitted during the call, `finished` is monotone, and
under `Flush.finish` the stream has ended with the round-trip property. -/
theorem write_ok_spec (E : Engine σ) (inflate : List Byte → Option (List Byte))
    (absIn absOut : σ → List Byte) (hc : Conforming E inflate absIn absOut)
    (fuel : Nat) (d d' : Deflate σ) (data : List Byte) (fl : Flush)
    (h : Deflate.write E fuel d data fl = .ok d') :
    d'.initialized = true ∧ d'.avail_in = [] ∧ d'.options = d.options ∧
    (d.finished = true → d'.finished = true) ∧
    (d.initialized = true →
      absIn d'.stream = absIn d.stream ++ data ∧
      ∃ δ, d'.output = d.output ++ δ ∧ absOut d'.stream = absOut d.stream ++ δ) ∧
    (d.initialized = false →
      absIn d'.stream = data ∧ d'.output = d.output ++ absOut d'.stream) ∧
    (fl = .finish → d'.finished = true ∧
      inflate (absOut d'.stream) = some (absIn d'.stream)) := by
  unfold Deflate.write at h
  cases hinit : Deflate.init E d with
  | err d2 k m =>
    simp only [hinit] at h
    exact DResult.noConfusion h
  | diverge =>
    simp only [hinit] at h
    exact DResult.noConfusion h
  | panic =>
    simp only [hinit] at h
    exact DResult.noConfusion h
  | ok d1 =>
    simp only [hinit] at h
    have hd1 := init_ok_fields E d d1 hinit
    simp only [Deflate.deflate, init_of_initialized E d1 hd1.1] at h
    obtain ⟨dIn, ⟨δ, dOut, dAbsOut⟩, dAvail, dInit, dOpts, dFin, dFinish⟩ :=
      driveLoop_ok_spec E inflate absIn absOut hc fl fuel _ d' h
    rcases init_ok_cases E d d1 hinit with ⟨hi, rfl⟩ | ⟨hi, hok, rfl⟩
    · have dIn2 : absIn d'.stream = absIn d1.stream ++ data := dIn
      have dOut2 : d'.output = d1.output ++ δ := dOut
      have dAbsOut2 : absOut d'.stream = absOut d1.stream ++ δ := dAbsOut
      have dInit2 : d'.initialized = d1.initialized := dInit
      have dOpts2 : d'.options = d1.options := dOpts
      have dFin2 : d1.finished = true → d'.finished = true := dFin
      refine ⟨by rw [dInit2, hi], dAvail, dOpts2, dFin2,
        fun _ => ⟨dIn2, δ, dOut2, dAbsOut2⟩, ?_, dFinish⟩
      intro hfalse
      rw [hi] at hfalse
      exact Bool.noConfusion hfalse
    · obtain ⟨hIn0, hOut0⟩ := hc.init_fresh d.options hok
      have dIn2 : absIn d'.stream = absIn (E.initE d.options).2 ++ data := dIn
      have dOut2 : d'.output = d.output ++ δ := dOut
      have dAbsOut2 : absOut d'.stream = absOut (E.initE d.options).2 ++ δ := dAbsOut
      have dInit2 : d'.initialized = true := dInit
      have dOpts2 : d'.options = d.options := dOpts
      have dFin2 : d.finished = true → d'.finished = true := dFin
      rw [hIn0, List.nil_append] at dIn2
      rw [hOut0, List.nil_append] at dAbsOut2
      refine ⟨dInit2, dAvail, dOpts2, dFin2, ?_, fun _ => ⟨dIn2, by rw [dOut2, dAbsOut2]⟩, dFinish⟩
      intro htrue
      rw [hi] at htrue
      exact Bool.noConfusion htrue

/-- `OptionsBuilder::new().finish()`. -/
def defaultOptions : Options := OptionsBuilder.new.finish

/-- A fresh toy session over an empty sink. -/
def toyFresh : Deflate ToyState := Deflate.new defaultOptions [] ([], 0)

/-- A trivial engine over `Unit` state whose four entry points return fixed
statuses `i` (init), `sd` (set-dictionary), `sp` (step) and `e` (end); its
step consumes everything and emits nothing. -/
def constEngine (i sd sp e : ZStatus) : Engine Unit :=
  { initE := fun _ => (i, ())
    setDictionaryE := fun _ _ => (sd, ())
    stepE := fun _ inp _ _ => { status := sp, state := (), consumed := inp.length, out := [] }
    endE := fun _ => e }

/-- A fresh session over `Unit` engine state. -/
def unitFresh : Deflate Unit := Deflate.new defaultOptions [] ()

/-- An already-initialized, unfinished session over `Unit` engine state,
with one byte already in the sink. -/
def unitInit : Deflate Unit :=
  { output := [7]
    options := defaultOptions
    initialized := true
    finished := false
    stream := ()
    avail_in := [] }

lemma write_ok_fields (E : Engine σ) (fuel : Nat) (d : Deflate σ) (data : List Byte)
    (fl : Flush) (d2 : Deflate σ) (h : Deflate.write E fuel d data fl = .ok d2) :
    d2.initialized = true ∧ (d.finished = true → d2.finished = true) := by
  unfold Deflate.write at h
  cases hinit : Deflate.init E d with
  | ok d1 =>
    simp only [hinit] at h
    have hd1 := init_ok_fields E d d1 hinit
    simp only [Deflate.deflate, init_of_initialized E d1 hd1.1] at h
    obtain ⟨h1, h2, h3⟩ := driveLoop_ok_fields E .write fl fuel _ d2 h
    have h1' : d2.initialized = d1.initialized := h1
    have h3' : d1.finished = true → d2.finished = true := h3
    exact ⟨by rw [h1', hd1.1], fun hf => h3' (by rw [hd1.2.1]; exact hf)⟩
  | err d3 k m =>
    simp only [hinit] at h
    exact DResult.noConfusion h
  | diverge =>
    simp only [hinit] at h
    exact DResult.noConfusion h
  | panic =>
    simp only [hinit] at h
    exact DResult.noConfusion h

lemma write_err_finished (E : Engine σ) (fuel : Nat) (d : Deflate σ) (data : List Byte)
    (fl : Flush) (d2 : Deflate σ) (k : ErrorKind) (m : String)
    (h : Deflate.write E fuel d data fl = .err d2 k m) :
    d2.finished = d.finished := by
  unfold Deflate.write at h
  cases hinit : Deflate.init E d with
  | ok d1 =>
    simp only [hinit] at h
    have hd1 := init_ok_fields E d d1 hinit
    simp only [Deflate.deflate, init_of_initialized E d1 hd1.1] at h
    obtain ⟨h1, h2, h3⟩ := driveLoop_err_fields E .write fl fuel _ d2 k m h
    have h3' : d2.finished = d1.finished := h3
    rw [h3', hd1.2.1]
  | err d3 k2 m2 =>
    simp only [hinit] at h
    injection h with h1 h2 h3
    rw [← h1]
    exact (init_err_fields E d d3 k2 m2 hinit).2.1
  | diverge =>
    simp only [hinit] at h
    exact DResult.noConfusion h
  | panic =>
    simp only [hinit] at h
    exact DResult.noConfusion h

lemma set_dictionary_ok_fields (E : Engine σ) (d : Deflate σ) (dict : List Byte)
    (d2 : Deflate σ) (h : Deflate.set_dictionary E d dict = .ok d2) :
    d2.initialized = true ∧ d2.finished = d.finished := by
  unfold Deflate.set_dictionary at h
  cases hinit : Deflate.init E d with
  | ok d1 =>
    simp only [hinit] at h
    have hd1 := init_ok_fields E d d1 hinit
    cases dict with
    | nil => exact DResult.noConfusion h
    | cons b bs =>
      split at h
      · exact DResult.noConfusion h
      · split at h
        · rename_i s hsd
          injection h with h
          rw [← h]
          exact ⟨hd1.1, hd1.2.1⟩
        · exact DResult.noConfusion h
        · exact DResult.noConfusion h
  | err d3 k m =>
    simp only [hinit] at h
    exact DResult.noConfusion h
  | diverge =>
    simp only [hinit] at h
    exact DResult.noConfusion h
  | panic =>
    simp only [hinit] at h
    exact DResult.noConfusion h

lemma set_dictionary_err_finished (E : Engine σ) (d : Deflate σ) (dict : List Byte)
    (d2 : Deflate σ) (k : ErrorKind) (m : String)
    (h : Deflate.set_dictionary E d dict = .err d2 k m) :
    d2.finished = d.finished := by
  unfold Deflate.set_dictionary at h
  cases hinit : Deflate.init E d with
  | ok d1 =>
    simp only [hinit] at h
    have hd1 := init_ok_fields E d d1 hinit
    cases dict with
    | nil => exact DResult.noConfusion h
    | cons b bs =>
      split at h
      · exact DResult.noConfusion h
      · split at h
        · exact DResult.noConfusion h
        · rename_i s hsd
          injection h with h1 h2 h3
          rw [← h1]
          exact hd1.2.1
        · rename_i s hsd
          injection h with h1 h2 h3
          rw [← h1]
          exact hd1.2.1
  | err d3 k2 m2 =>
    simp only [hinit] at h
    injection h with h1 h2 h3
    rw [← h1]
    exact (init_err_fields E d d3 k2 m2 hinit).2.1
  | diverge =>
    simp only [hinit] at h
    exact DResult.noConfusion h
  | panic =>
    simp only [hinit] at h
    exact DResult.noConfusion h

/-- C5: `finish()` on an initialized Session maps the engine's
resource-release status (`deflateEnd`) exactly so: success returns the
Writer; "inconsistent stream state" (`Z_STREAM_ERROR`) is treated as success
and returns the Writer; "data error" fails with an `InvalidInput`-kind error
"Stream freed early"; any other status fails with an `Other`-kind error
"Unexpected error". -/
theorem c5_finish_end_mapping (E : Engine σ) (d : Deflate σ)
    (h : d.initialized = true) :
    (E.endE d.stream = .ok → Deflate.finish E d = .okW d.output) ∧
    (E.endE d.stream = .streamError → Deflate.finish E d = .okW d.output) ∧
    (E.endE d.stream = .dataError →
      Deflate.finish E d = .errW .invalidInput "Stream freed early") ∧
    (E.endE d.stream ≠ .ok → E.endE d.stream ≠ .streamError →
      E.endE d.stream ≠ .dataError →
      Deflate.finish E d = .errW .other "Unexpected error") := by
  unfold Deflate.finish
  rw [h]
  refine ⟨fun h1 => by rw [if_pos rfl, h1], fun h1 => by rw [if_pos rfl, h1],
    fun h1 => by rw [if_pos rfl, h1], fun h1 h2 h3 => ?_⟩
  rw [if_pos rfl]
  cases hE : E.endE d.stream
  · exact absurd hE h1
  · rfl
  · rfl
  · exact absurd hE h2
  · rfl
  · exact absurd hE h3
  · rfl
  · rfl

/-- Witness for C5 at a concrete engine and session. -/
theorem c5_finish_end_mapping_witness :
    Deflate.finish (constEngine .ok .ok .ok .dataError) unitInit =
      .errW .invalidInput "Stream freed early" :=
  (c5_finish_end_mapping (constEngine .ok .ok .ok .dataError) unitInit rfl).2.2.1 rfl

/-- C9: on an initialized, unfinished Session, `finish()` performs no final
`Finish`-flush drain: its result depends only on the engine's
resource-release entry point (`deflateEnd`) — two engines agreeing on
`endE` give the same result, whatever their step functions do — and on a
successful release the Writer comes back with the sink exactly as the last
`write` left it (no extra drained bytes), even though `finished` is
false. -/
theorem c9_finish_no_drain (E : Engine σ) (d : Deflate σ)
    (h : d.initialized = true) (_hf : d.finished = false) :
    (∀ E' : Engine σ, (∀ s, E'.endE s = E.endE s) →
      Deflate.finish E' d = Deflate.finish E d) ∧
    (E.endE d.stream = .ok → Deflate.finish E d = .okW d.output) := by
  constructor
  · intro E' hE
    unfold Deflate.finish
    rw [h, if_pos rfl, if_pos rfl, hE]
  · intro h1
    unfold Deflate.finish
    rw [h, if_pos rfl, h1]

/-- Witness for C9: an engine whose step function would error is never
consulted by `finish()`. -/
theorem c9_finish_no_drain_witness :
    Deflate.finish (constEngine .ok .ok .bufError .ok) unitInit = .okW [7] :=
  (c9_finish_no_drain (constEngine .ok .ok .bufError .ok) unitInit rfl rfl).2 rfl

/-- C10: `finish()` on a never-initialized Session succeeds and returns the
Writer unchanged; the conclusion is the same for every engine, so no engine
entry point is involved. -/
theorem c10_finish_uninitialized (E : Engine σ) (d : Deflate σ)
    (h : d.initialized = false) : Deflate.finish E d = .okW d.output := by
  unfold Deflate.finish
  rw [h]
  rfl

/-- Witness for C10 on a fresh toy session. -/
theorem c10_finish_uninitialized_witness :
    Deflate.finish toyEngine toyFresh = .okW [] :=
  c10_finish_uninitialized toyEngine toyFresh rfl

/-- C7: `init()` is idempotent — on an already-initialized Session it
returns success immediately with the Session unchanged (for every engine,
so the engine's initialization entry point cannot be involved), and any
Session produced by a successful `write` or `set_dictionary` is
initialized, so a subsequent `init()` is again an immediate no-op
success. -/
theorem c7_init_idempotent (E : Engine σ) (d : Deflate σ)
    (h : d.initialized = true) :
    Deflate.init E d = .ok d ∧
    (∀ fuel data fl (d2 : Deflate σ),
      Deflate.write E fuel d data fl = .ok d2 → Deflate.init E d2 = .ok d2) ∧
    (∀ dict (d2 : Deflate σ),
      Deflate.set_dictionary E d dict = .ok d2 → Deflate.init E d2 = .ok d2) := by
  refine ⟨init_of_initialized E d h, ?_, ?_⟩
  · intro fuel data fl d2 hw
    exact init_of_initialized E d2 (write_ok_fields E fuel d data fl d2 hw).1
  · intro dict d2 hs
    exact init_of_initialized E d2 (set_dictionary_ok_fields E d dict d2 hs).1

/-- Witness for C7 on a concrete initialized session. -/
theorem c7_init_idempotent_witness :
    Deflate.init (constEngine .ok .ok .ok .ok) unitInit = .ok unitInit :=
  (c7_init_idempotent (constEngine .ok .ok .ok .ok) unitInit rfl).1

/-- C3 counterexample: on the "incompatible version" status the code's
error message is "Incompatible version of zlib" (line 127 of the source),
not "Incompatible version" as the claim states. -/
theorem c3_version_message_counterexample :
    Deflate.init (constEngine .versionError .ok .ok .ok) unitFresh =
      .err { unitFresh with stream := () } .invalidInput "Incompatible version of zlib" ∧
    "Incompatible version of zlib" ≠ "Incompatible version" := by
  exact ⟨rfl, by decide⟩

/-- C3 (amended): `init()` maps engine initialization statuses exactly so:
out-of-memory → `Other` "Out of memory"; invalid stream state →
`InvalidInput` "Invalid parameter"; incompatible version → `InvalidInput`
"Incompatible version of zlib"; any other non-success status → `Other`
"Unexpected error". -/
theorem c3_init_status_mapping (E : Engine σ) (d : Deflate σ)
    (h : d.initialized = false) :
    ((E.initE d.options).1 = .ok →
      Deflate.init E d =
        .ok { d with initialized := true, stream := (E.initE d.options).2 }) ∧
    ((E.initE d.options).1 = .memError →
      Deflate.init E d =
        .err { d with stream := (E.initE d.options).2 } .other "Out of memory") ∧
    ((E.initE d.options).1 = .streamError →
      Deflate.init E d =
        .err { d with stream := (E.initE d.options).2 } .invalidInput "Invalid parameter") ∧
    ((E.initE d.options).1 = .versionError →
      Deflate.init E d =
        .err { d with stream := (E.initE d.options).2 } .invalidInput
          "Incompatible version of zlib") ∧
    ((E.initE d.options).1 ≠ .ok → (E.initE d.options).1 ≠ .memError →
      (E.initE d.options).1 ≠ .streamError → (E.initE d.options).1 ≠ .versionError →
      Deflate.init E d =
        .err { d with stream := (E.initE d.options).2 } .other "Unexpected error") := by
  have hinit : Deflate.init E d =
      match E.initE d.options with
      | (.ok, s) => .ok { d with initialized := true, stream := s }
      | (.memError, s) => .err { d with stream := s } .other "Out of memory"
      | (.streamError, s) => .err { d with stream := s } .invalidInput "Invalid parameter"
      | (.versionError, s) =>
        .err { d with stream := s } .invalidInput "Incompatible version of zlib"
      | (_, s) => .err { d with stream := s } .other "Unexpected error" := by
    simp [Deflate.init, h]
  rcases hE : E.initE d.options with ⟨st, s⟩
  rw [hE] at hinit
  cases st with
  | ok =>
    exact ⟨fun _ => hinit, fun hx => ZStatus.noConfusion hx, fun hx => ZStatus.noConfusion hx,
      fun hx => ZStatus.noConfusion hx, fun h1 _ _ _ => absurd rfl h1⟩
  | memError =>
    exact ⟨fun hx => ZStatus.noConfusion hx, fun _ => hinit, fun hx => ZStatus.noConfusion hx,
      fun hx => ZStatus.noConfusion hx, fun _ h2 _ _ => absurd rfl h2⟩
  | streamError =>
    exact ⟨fun hx => ZStatus.noConfusion hx, fun hx => ZStatus.noConfusion hx, fun _ => hinit,
      fun hx => ZStatus.noConfusion hx, fun _ _ h3 _ => absurd rfl h3⟩
  | versionError =>
    exact ⟨fun hx => ZStatus.noConfusion hx, fun hx => ZStatus.noConfusion hx,
      fun hx => ZStatus.noConfusion hx, fun _ => hinit, fun _ _ _ h4 => absurd rfl h4⟩
  | streamEnd =>
    exact ⟨fun hx => ZStatus.noConfusion hx, fun hx => ZStatus.noConfusion hx,
      fun hx => ZStatus.noConfusion hx, fun hx => ZStatus.noConfusion hx,
      fun _ _ _ _ => hinit⟩
  | dataError =>
    exact ⟨fun hx => ZStatus.noConfusion hx, fun hx => ZStatus.noConfusion hx,
      fun hx => ZStatus.noConfusion hx, fun hx => ZStatus.noConfusion hx,
      fun _ _ _ _ => hinit⟩
  | bufError =>
    exact ⟨fun hx => ZStatus.noConfusion hx, fun hx => ZStatus.noConfusion hx,
      fun hx => ZStatus.noConfusion hx, fun hx => ZStatus.noConfusion hx,
      fun _ _ _ _ => hinit⟩
  | unexpected =>
    exact ⟨fun hx => ZStatus.noConfusion hx, fun hx => ZStatus.noConfusion hx,
      fun hx => ZStatus.noConfusion hx, fun hx => ZStatus.noConfusion hx,
      fun _ _ _ _ => hinit⟩

/-- Witness for the amended C3 mapping at the version-error engine. -/
theorem c3_init_status_mapping_witness :
    Deflate.init (constEngine .versionError .ok .ok .ok) unitFresh =
      .err { unitFresh with stream := () } .invalidInput "Incompatible version of zlib" :=
  (c3_init_status_mapping (constEngine .versionError .ok .ok .ok) unitFresh rfl).2.2.2.1 rfl

/-- C6 counterexample: on the empty dictionary slice `set_dictionary`
panics (the `&dict[0]` index) after a successful `init` and before any
engine call, contradicting "never panics ... even when the dictionary is
empty". -/
theorem c6_empty_dict_counterexample :
    Deflate.set_dictionary (constEngine .ok .ok .ok .ok) unitFresh [] = .panic := rfl

/-- C6 (amended): `set_dictionary` first runs `init()` (propagating its
failure).  For a NON-empty dictionary it then hands the dictionary to the
engine and maps the status; for the EMPTY dictionary it panics on the
`dict[0]` index before reaching the engine call. -/
theorem c6_set_dictionary_spec (E : Engine σ) (d : Deflate σ) (dict : List Byte) :
    (∀ (d2 : Deflate σ) k m, Deflate.init E d = .err d2 k m →
      Deflate.set_dictionary E d dict = .err d2 k m) ∧
    (∀ d1 : Deflate σ, Deflate.init E d = .ok d1 → dict = [] →
      Deflate.set_dictionary E d dict = .panic) ∧
    (∀ d1 : Deflate σ, Deflate.init E d = .ok d1 → dict ≠ [] →
      ((E.setDictionaryE d1.stream dict).1 = .ok →
        Deflate.set_dictionary E d dict =
          .ok { d1 with stream := (E.setDictionaryE d1.stream dict).2 }) ∧
      ((E.setDictionaryE d1.stream dict).1 = .streamError →
        Deflate.set_dictionary E d dict =
          .err { d1 with stream := (E.setDictionaryE d1.stream dict).2 }
            .invalidInput "Invalid parameter") ∧
      ((E.setDictionaryE d1.stream dict).1 ≠ .ok →
        (E.setDictionaryE d1.stream dict).1 ≠ .streamError →
        Deflate.set_dictionary E d dict =
          .err { d1 with stream := (E.setDictionaryE d1.stream dict).2 }
            .other "Unexpected error")) := by
  refine ⟨?_, ?_, ?_⟩
  · intro d2 k m hE
    simp [Deflate.set_dictionary, hE]
  · intro d1 hE hdict
    subst hdict
    simp [Deflate.set_dictionary, hE]
  · intro d1 hE hne
    cases dict with
    | nil => exact absurd rfl hne
    | cons b bs =>
      have hbody : Deflate.set_dictionary E d (b :: bs) =
          match E.setDictionaryE d1.stream (b :: bs) with
          | (.ok, s) => .ok { d1 with stream := s }
          | (.streamError, s) => .err { d1 with stream := s } .invalidInput "Invalid parameter"
          | (_, s) => .err { d1 with stream := s } .other "Unexpected error" := by
        simp [Deflate.set_dictionary, hE]
      rcases hsd : E.setDictionaryE d1.stream (b :: bs) with ⟨st, s⟩
      rw [hsd] at hbody
      cases st with
      | ok =>
        exact ⟨fun _ => hbody, fun hx => ZStatus.noConfusion hx, fun h1 _ => absurd rfl h1⟩
      | streamError =>
        exact ⟨fun hx => ZStatus.noConfusion hx, fun _ => hbody, fun _ h2 => absurd rfl h2⟩
      | streamEnd =>
        exact ⟨fun hx => ZStatus.noConfusion hx, fun hx => ZStatus.noConfusion hx,
          fun _ _ => hbody⟩
      | memError =>
        exact ⟨fun hx => ZStatus.noConfusion hx, fun hx => ZStatus.noConfusion hx,
          fun _ _ => hbody⟩
      | versionError =>
        exact ⟨fun hx => ZStatus.noConfusion hx, fun hx => ZStatus.noConfusion hx,
          fun _ _ => hbody⟩
      | dataError =>
        exact ⟨fun hx => ZStatus.noConfusion hx, fun hx => ZStatus.noConfusion hx,
          fun _ _ => hbody⟩
      | bufError =>
        exact ⟨fun hx => ZStatus.noConfusion hx, fun hx => ZStatus.noConfusion hx,
          fun _ _ => hbody⟩
      | unexpected =>
        exact ⟨fun hx => ZStatus.noConfusion hx, fun hx => ZStatus.noConfusion hx,
          fun _ _ => hbody⟩

/-- Witness for the amended C6 on a one-byte dictionary. -/
theorem c6_set_dictionary_spec_witness :
    Deflate.set_dictionary (constEngine .ok .ok .ok .ok) unitInit [5] =
      .ok { unitInit with stream := () } :=
  ((c6_set_dictionary_spec (constEngine .ok .ok .ok .ok) unitInit [5]).2.2 unitInit rfl
    (by decide)).1 rfl

/-- The session left by `write(toyEngine, toyFresh, [1,2], NoFlush)`. -/
def toyAfter1 : Deflate ToyState :=
  { output := [1, 2]
    options := defaultOptions
    initialized := true
    finished := false
    stream := ([1, 2], 2)
    avail_in := [] }

/-- C2: for every input slice and flush directive, a successful `write`
has handed the entire slice to the engine — the engine's remaining
available-input region (`avail_in`) is empty on return, and the engine's
absorbed-input view has grown by exactly the slice — and every byte the
engine was willing to produce during the call is in the sink (the sink grew
by exactly the engine's newly emitted bytes).  Stated over any engine
conforming to the modelled zlib contract. -/
theorem c2_write_consumes_all (E : Engine σ) (inflate : List Byte → Option (List Byte))
    (absIn absOut : σ → List Byte) (hc : Conforming E inflate absIn absOut)
    (fuel : Nat) (d d' : Deflate σ) (data : List Byte) (fl : Flush)
    (h : Deflate.write E fuel d data fl = .ok d') :
    d'.avail_in = [] ∧
    (d.initialized = true → absIn d'.stream = absIn d.stream ++ data) ∧
    (d.initialized = false → absIn d'.stream = data) ∧
    (∃ δ, d'.output = d.output ++ δ ∧
      absOut d'.stream = (if d.initialized then absOut d.stream else []) ++ δ) := by
  obtain ⟨h1, h2, h3, h4, h5, h6, h7⟩ :=
    write_ok_spec E inflate absIn absOut hc fuel d d' data fl h
  refine ⟨h2, fun ht => (h5 ht).1, fun hf => (h6 hf).1, ?_⟩
  cases hi : d.initialized with
  | false =>
    obtain ⟨hin, hout⟩ := h6 hi
    refine ⟨absOut d'.stream, hout, ?_⟩
    simp
  | true =>
    obtain ⟨hin, δ, hout, habs⟩ := h5 hi
    exact ⟨δ, hout, by simpa using habs⟩

/-- Witness for C2 on a concrete run of the toy engine. -/
theorem c2_write_consumes_all_witness :
    toyAfter1.avail_in = [] ∧
    (toyFresh.initialized = true →
      toyAbsIn toyAfter1.stream = toyAbsIn toyFresh.stream ++ [1, 2]) ∧
    (toyFresh.initialized = false → toyAbsIn toyAfter1.stream = [1, 2]) ∧
    (∃ δ, toyAfter1.output = toyFresh.output ++ δ ∧
      toyAbsOut toyAfter1.stream =
        (if toyFresh.initialized then toyAbsOut toyFresh.stream else []) ++ δ) :=
  c2_write_consumes_all toyEngine idInflate toyAbsIn toyAbsOut toyConforming
    1 toyFresh toyAfter1 [1, 2] .noFlush rfl

/-- C4: one iteration of the engine-driving loop.  On status `Z_OK` or
`Z_STREAM_END` exactly `buffer.len() - avail_out` bytes — that is, exactly
the engine's emitted bytes — are appended to the sink in write mode and
dropped in discard mode; the loop repeats only when the status was `Z_OK`
with `avail_out == 0`; it returns success when the status was `Z_OK` with
`avail_out > 0` or when the status was `Z_STREAM_END`; every other status
returns an error rather than looping. -/
theorem c4_drive_loop_iteration (E : Engine σ) (om : Output) (fl : Flush)
    (d : Deflate σ) (fuel : Nat)
    (hwf : (E.stepE d.stream d.avail_in fl bufLen).out.length ≤ bufLen) :
    (E.stepE d.stream d.avail_in fl bufLen).out.length =
      bufLen - (bufLen - (E.stepE d.stream d.avail_in fl bufLen).out.length) ∧
    (stepUpdate .write d (E.stepE d.stream d.avail_in fl bufLen)).output =
      d.output ++ (E.stepE d.stream d.avail_in fl bufLen).out ∧
    (stepUpdate .discard d (E.stepE d.stream d.avail_in fl bufLen)).output = d.output ∧
    ((E.stepE d.stream d.avail_in fl bufLen).status = .ok →
      (bufLen - (E.stepE d.stream d.avail_in fl bufLen).out.length = 0 →
        driveLoop E om fl (fuel + 1) d =
          driveLoop E om fl fuel (stepUpdate om d (E.stepE d.stream d.avail_in fl bufLen))) ∧
      (bufLen - (E.stepE d.stream d.avail_in fl bufLen).out.length ≠ 0 →
        driveLoop E om fl (fuel + 1) d =
          .ok (stepUpdate om d (E.stepE d.stream d.avail_in fl bufLen)))) ∧
    ((E.stepE d.stream d.avail_in fl bufLen).status = .streamEnd →
      driveLoop E om fl (fuel + 1) d =
        .ok { stepUpdate om d (E.stepE d.stream d.avail_in fl bufLen) with
                finished := true }) ∧
    ((E.stepE d.stream d.avail_in fl bufLen).status ≠ .ok →
      (E.stepE d.stream d.avail_in fl bufLen).status ≠ .streamEnd →
      ∃ (d2 : Deflate σ) (k : ErrorKind) (m : String),
        driveLoop E om fl (fuel + 1) d = .err d2 k m) := by
  refine ⟨by omega, rfl, rfl, fun hst => ⟨fun hz => ?_, fun hnz => ?_⟩,
    fun hst => ?_, fun h1 h2 => ?_⟩
  · simp [driveLoop, hst, hz]
  · simp only [driveLoop, hst]
    rw [if_neg hnz]
  · simp only [driveLoop, hst]
  · cases hst : (E.stepE d.stream d.avail_in fl bufLen).status with
    | ok => exact absurd hst h1
    | streamEnd => exact absurd hst h2
    | streamError =>
      exact ⟨errUpdate d (E.stepE d.stream d.avail_in fl bufLen), .invalidInput,
        "Inconsistent stream state", by simp only [driveLoop, hst]⟩
    | bufError =>
      exact ⟨errUpdate d (E.stepE d.stream d.avail_in fl bufLen), .other,
        "No progress possible", by simp only [driveLoop, hst]⟩
    | memError =>
      exact ⟨errUpdate d (E.stepE d.stream d.avail_in fl bufLen), .other,
        "Unexpected error", by simp only [driveLoop, hst]⟩
    | versionError =>
      exact ⟨errUpdate d (E.stepE d.stream d.avail_in fl bufLen), .other,
        "Unexpected error", by simp only [driveLoop, hst]⟩
    | dataError =>
      exact ⟨errUpdate d (E.stepE d.stream d.avail_in fl bufLen), .other,
        "Unexpected error", by simp only [driveLoop, hst]⟩
    | unexpected =>
      exact ⟨errUpdate d (E.stepE d.stream d.avail_in fl bufLen), .other,
        "Unexpected error", by simp only [driveLoop, hst]⟩

/-- Witness for C4 on a concrete toy-engine iteration that returns
success with remaining output space. -/
theorem c4_drive_loop_iteration_witness :
    driveLoop toyEngine .write .noFlush 1 { toyFresh with avail_in := [9] } =
      .ok (stepUpdate .write { toyFresh with avail_in := [9] }
        (toyEngine.stepE toyFresh.stream [9] .noFlush bufLen)) :=
  ((c4_drive_loop_iteration toyEngine .write .noFlush
      { toyFresh with avail_in := [9] } 0 (by decide)).2.2.2.1 rfl).2 (by decide)

/-- C8: the `finished` flag is monotonic — `init` and `set_dictionary`
never change it (on success or error), the driving loop and `write` keep it
true once true, and errors from the loop leave it exactly as it was — and
it is set to true exactly by the `Z_STREAM_END` status: an iteration whose
step reports `Z_STREAM_END` returns success with `finished := true`, while
with an engine that never reports `Z_STREAM_END` under the given flush a
successful loop leaves `finished` unchanged. -/
theorem c8_finished_monotonic (E : Engine σ) (d : Deflate σ) (fl : Flush) :
    (∀ d2 : Deflate σ, Deflate.init E d = .ok d2 → d2.finished = d.finished) ∧
    (∀ (d2 : Deflate σ) (k : ErrorKind) (m : String),
      Deflate.init E d = .err d2 k m → d2.finished = d.finished) ∧
    (∀ (dict : List Byte) (d2 : Deflate σ),
      Deflate.set_dictionary E d dict = .ok d2 → d2.finished = d.finished) ∧
    (∀ (dict : List Byte) (d2 : Deflate σ) (k : ErrorKind) (m : String),
      Deflate.set_dictionary E d dict = .err d2 k m → d2.finished = d.finished) ∧
    (∀ (om : Output) (fuel : Nat) (d2 : Deflate σ), d.finished = true →
      driveLoop E om fl fuel d = .ok d2 → d2.finished = true) ∧
    (∀ (om : Output) (fuel : Nat) (d2 : Deflate σ) (k : ErrorKind) (m : String),
      driveLoop E om fl fuel d = .err d2 k m → d2.finished = d.finished) ∧
    (∀ (fuel : Nat) (data : List Byte) (d2 : Deflate σ), d.finished = true →
      Deflate.write E fuel d data fl = .ok d2 → d2.finished = true) ∧
    (∀ (om : Output) (fuel : Nat),
      (E.stepE d.stream d.avail_in fl bufLen).status = .streamEnd →
      driveLoop E om fl (fuel + 1) d =
        .ok { stepUpdate om d (E.stepE d.stream d.avail_in fl bufLen) with
                finished := true }) ∧
    ((∀ (s : σ) (inp : List Byte), (E.stepE s inp fl bufLen).status ≠ .streamEnd) →
      ∀ (om : Output) (fuel : Nat) (d2 : Deflate σ),
        driveLoop E om fl fuel d = .ok d2 → d2.finished = d.finished) := by
  refine ⟨?_, ?_, ?_, ?_, ?_, ?_, ?_, ?_, ?_⟩
  · intro d2 h
    exact (init_ok_fields E d d2 h).2.1
  · intro d2 k m h
    exact (init_err_fields E d d2 k m h).2.1
  · intro dict d2 h
    exact (set_dictionary_ok_fields E d dict d2 h).2
  · intro dict d2 k m h
    exact set_dictionary_err_finished E d dict d2 k m h
  · intro om fuel d2 hf h
    exact (driveLoop_ok_fields E om fl fuel d d2 h).2.2 hf
  · intro om fuel d2 k m h
    exact (driveLoop_err_fields E om fl fuel d d2 k m h).2.2
  · intro fuel data d2 hf h
    exact (write_ok_fields E fuel d data fl d2 h).2 hf
  · intro om fuel hst
    simp only [driveLoop, hst]
  · intro hne om fuel d2 h
    exact driveLoop_no_streamEnd E om fl hne fuel d d2 h

/-- Witness for C8: a toy `Finish` step that reports stream-end sets
`finished` in one loop iteration. -/
theorem c8_finished_monotonic_witness :
    driveLoop toyEngine .write .finish 1 toyAfter1 =
      .ok { stepUpdate .write toyAfter1
              (toyEngine.stepE toyAfter1.stream toyAfter1.avail_in .finish bufLen) with
              finished := true } :=
  (c8_finished_monotonic toyEngine toyAfter1 .finish).2.2.2.2.2.2.2.1 .write 0 rfl

/-- Repeated `write` calls with `NoFlush`, one per chunk, stopping at the
first non-success outcome. -/
def writeNoFlushSeq (E : Engine σ) (fuel : Nat) : Deflate σ → List (List Byte) → DResult σ
  | d, [] => .ok d
  | d, c :: cs =>
    match Deflate.write E fuel d c .noFlush with
    | .ok d1 => writeNoFlushSeq E fuel d1 cs
    | r => r

/-- Invariant tying a session to the engine's ghost views: either the
session is initialized, the engine has absorbed exactly `allIn`, and the
sink holds exactly the emitted bytes; or the session is still fresh with an
empty sink and nothing absorbed. -/
def SessionView (absIn absOut : σ → List Byte) (allIn : List Byte) (d : Deflate σ) : Prop :=
  (d.initialized = true ∧ absIn d.stream = allIn ∧ absOut d.stream = d.output) ∨
  (d.initialized = false ∧ d.output = [] ∧ allIn = [])

lemma write_view (E : Engine σ) (inflate : List Byte → Option (List Byte))
    (absIn absOut : σ → List Byte) (hc : Conforming E inflate absIn absOut)
    (fuel : Nat) (allIn : List Byte) (d d' : Deflate σ) (data : List Byte) (fl : Flush)
    (hv : SessionView absIn absOut allIn d)
    (h : Deflate.write E fuel d data fl = .ok d') :
    SessionView absIn absOut (allIn ++ data) d' := by
  obtain ⟨h1, h2, h3, h4, h5, h6, h7⟩ :=
    write_ok_spec E inflate absIn absOut hc fuel d d' data fl h
  rcases hv with ⟨hi, hIn, hOut⟩ | ⟨hi, hOutNil, hNil⟩
  · obtain ⟨hin, δ, hout, habs⟩ := h5 hi
    exact Or.inl ⟨h1, by rw [hin, hIn], by rw [habs, hOut, hout]⟩
  · obtain ⟨hin, hout⟩ := h6 hi
    refine Or.inl ⟨h1, by rw [hin, hNil, List.nil_append], ?_⟩
    rw [hout, hOutNil, List.nil_append]

lemma writeNoFlushSeq_view (E : Engine σ) (inflate : List Byte → Option (List Byte))
    (absIn absOut : σ → List Byte) (hc : Conforming E inflate absIn absOut)
    (fuel : Nat) :
    ∀ (chunks : List (List Byte)) (allIn : List Byte) (d d' : Deflate σ),
      SessionView absIn absOut allIn d →
      writeNoFlushSeq E fuel d chunks = .ok d' →
      SessionView absIn absOut (allIn ++ chunks.flatten) d' := by
  intro chunks
  induction chunks with
  | nil =>
    intro allIn d d' hv h
    simp only [writeNoFlushSeq] at h
    injection h with h
    subst h
    simpa using hv
  | cons c cs ih =>
    intro allIn d d' hv h
    simp only [writeNoFlushSeq] at h
    cases hw : Deflate.write E fuel d c .noFlush with
    | ok d1 =>
      rw [hw] at h
      have hv1 := write_view E inflate absIn absOut hc fuel allIn d d1 c .noFlush hv hw
      have := ih (allIn ++ c) d1 d' hv1 h
      simpa [List.append_assoc] using this
    | err d2 k m =>
      rw [hw] at h
      exact DResult.noConfusion h
    | diverge =>
      rw [hw] at h
      exact DResult.noConfusion h
    | panic =>
      rw [hw] at h
      exact DResult.noConfusion h

lemma finish_okW (E : Engine σ) (d : Deflate σ) (w : List Byte)
    (h : Deflate.finish E d = .okW w) : w = d.output := by
  unfold Deflate.finish at h
  split at h
  · split at h
    · injection h with h
      exact h.symm
    · injection h with h
      exact h.symm
    · exact FinishResult.noConfusion h
    · exact FinishResult.noConfusion h
  · injection h with h
    exact h.symm

/-- C1: round-trip law.  For any valid Options and any input byte sequence
split into arbitrary chunks, compressing via repeated `write` calls with
`NoFlush`, then one final `write` with `Finish`, then `finish()`, produces
output that the engine's conforming decompressor inflates back to the
original concatenated input.  Stated over any engine conforming to the
modelled zlib contract (the engine and decompressor are outside this
repository). -/
theorem c1_round_trip (E : Engine σ) (inflate : List Byte → Option (List Byte))
    (absIn absOut : σ → List Byte) (hc : Conforming E inflate absIn absOut)
    (opts : Options) (s0 : σ) (chunks : List (List Byte)) (last : List Byte)
    (fuel fuel2 : Nat) (d1 d2 : Deflate σ) (w : List Byte)
    (h1 : writeNoFlushSeq E fuel (Deflate.new opts [] s0) chunks = .ok d1)
    (h2 : Deflate.write E fuel2 d1 last .finish = .ok d2)
    (h3 : Deflate.finish E d2 = .okW w) :
    inflate w = some (chunks.flatten ++ last) := by
  have hv0 : SessionView absIn absOut [] (Deflate.new opts [] s0) :=
    Or.inr ⟨rfl, rfl, rfl⟩
  have hv1 := writeNoFlushSeq_view E inflate absIn absOut hc fuel chunks []
    (Deflate.new opts [] s0) d1 hv0 h1
  rw [List.nil_append] at hv1
  obtain ⟨g1, g2, g3, g4, g5, g6, g7⟩ :=
    write_ok_spec E inflate absIn absOut hc fuel2 d1 d2 last .finish h2
  have hv2 := write_view E inflate absIn absOut hc fuel2 chunks.flatten d1 d2 last
    .finish hv1 h2
  obtain ⟨hfin, hrt⟩ := g7 rfl
  rcases hv2 with ⟨hi, hIn, hOut⟩ | ⟨hi, _, _⟩
  · have hw := finish_okW E d2 w h3
    rw [hw, ← hOut, hrt, hIn]
  · rw [g1] at hi
    exact Bool.noConfusion hi

/-- The session left by the final `Finish` write of the witness run. -/
def toyDone : Deflate ToyState :=
  { output := [1, 2, 4]
    options := defaultOptions
    initialized := true
    finished := true
    stream := ([1, 2, 4], 3)
    avail_in := [] }

/-- Witness for C1: a two-chunk toy run whose sink inflates back to the
concatenated input. -/
theorem c1_round_trip_witness :
    idInflate [1, 2, 4] = some (List.flatten [[1, 2]] ++ [4]) :=
  c1_round_trip toyEngine idInflate toyAbsIn toyAbsOut toyConforming
    defaultOptions ([], 0) [[1, 2]] [4] 1 1 toyAfter1 toyDone [1, 2, 4] rfl rfl rfl
